import Mathlib

/-!
Verification of `upload_obs_recording_to_service.py`.

The Python program is embedded shallowly:
* `PyPath` models `pathlib.Path` for relative paths (a list of components;
  construction from a string drops empty and `.` components, as pathlib does).
* `VideoService` with `ffmpeg_output_kwargs` / `output_file_suffix` embeds the
  enum of lines 34-53 and `VideoService.from_argument` (lines 58-66).
* `mainRun` embeds `main` (lines 69-103); the external world enters as two
  parameters: the recursive listing of the input directory (what
  `input_directory.glob` enumerates, in filesystem order) and a predicate
  saying which ffmpeg invocations succeed.  The observable behaviour is a
  trace of process events plus the returned value or the propagated
  exception.
* `parse_arguments` (lines 106-165) is embedded as an operational model of the
  declared argparse surface: a left-to-right pass over the token list, exact
  flag tokens, one value token per value-taking option (a value token may not
  begin with `-`, as argparse refuses option-like strings as option values),
  mutual-exclusion and required checks as argparse performs them.
-/

/- ### Errors raised by the embedded Python code -/

/-- Exceptions `main` can raise: `TypeError` (from `list(...)` applied to a
non-iterable), `ValueError` (raised by `VideoService.from_argument`), and the
error raised by `ffmpeg.run` when the encoder invocation fails (non-zero exit,
missing executable, unreadable input — the claims never distinguish these). -/
inductive PyErr where
  | typeError
  | valueError
  | ffmpegError
deriving DecidableEq, Repr

/- ### pathlib.Path -/

/-- A relative `pathlib.Path`: its list of components. -/
structure PyPath where
  parts : List String
deriving DecidableEq, Repr

/-- Splitting a character list at `/`, as Python's `str.split('/')` does
(consecutive separators give empty pieces). -/
def splitSlashAux : List Char → List Char → List String
  | [], acc => [String.mk acc.reverse]
  | c :: cs, acc =>
    if c = '/' then String.mk acc.reverse :: splitSlashAux cs []
    else splitSlashAux cs (c :: acc)

/-- Embeds `Path(s)` for a relative string `s`: split on `/`, drop empty and `.`
components (pathlib normalisation: `Path('./a//b/')` has parts `('a','b')`). -/
def PyPath.ofString (s : String) : PyPath :=
  ⟨(splitSlashAux s.data []).filter (fun c => c ≠ "" ∧ c ≠ ".")⟩

/-- Embeds `str(p)`: components joined by `/`; the empty path prints as `.`. -/
def PyPath.str (p : PyPath) : String :=
  if p.parts = [] then "." else String.intercalate "/" p.parts

/-- Embeds `p.name`: the final component (empty for the empty path). -/
def PyPath.name (p : PyPath) : String :=
  p.parts.getLastD ""

/-- Index of the last `.` in a list of characters, if any. -/
def lastDotIdx (cs : List Char) : Option Nat :=
  match cs.reverse.findIdx? (fun c => c = '.') with
  | some j => some (cs.length - 1 - j)
  | none => none

/-- Embeds `PurePath.stem` applied to a name: the name without its suffix, where the
suffix starts at the last `.` whose index `i` satisfies `0 < i < len - 1`
(so `.mkv` and `a.` are their own stem), exactly as in pathlib's source. -/
def pyStemOfName (nm : String) : String :=
  let cs := nm.data
  match lastDotIdx cs with
  | some i => if 0 < i ∧ i < cs.length - 1 then String.mk (cs.take i) else nm
  | none => nm

/-- Embeds `p.stem`. -/
def PyPath.stem (p : PyPath) : String :=
  pyStemOfName p.name

/-- Embeds `p / s` for a string `s` (relative): append the components of `s`. -/
def PyPath.join (p : PyPath) (s : String) : PyPath :=
  ⟨p.parts ++ (PyPath.ofString s).parts⟩

/- ### The VideoService enum (source lines 34-66) -/

/-- The two members of the `VideoService` enum. -/
inductive VideoService where
  | VIMEO
  | YOUTUBE
deriving DecidableEq, Repr

/-- The keyword arguments passed to `ffmpeg.output`. -/
structure FfmpegKwargs where
  vcodec : String
  preset : String
  crf : Nat
  acodec : String
  pix_fmt : String
deriving DecidableEq, Repr

/-- Embeds `service.ffmpeg_output_kwargs`, the dict attached to each enum member. -/
def VideoService.ffmpeg_output_kwargs : VideoService → FfmpegKwargs
  | .VIMEO =>
    { vcodec := "libx264", preset := "veryslow", crf := 18,
      acodec := "copy", pix_fmt := "yuv420p" }
  | .YOUTUBE =>
    { vcodec := "libx264", preset := "veryslow", crf := 19,
      acodec := "copy", pix_fmt := "yuv420p" }

/-- Embeds `service.output_file_suffix`, the suffix attached to each enum member. -/
def VideoService.output_file_suffix : VideoService → String
  | .VIMEO => ".mp4"
  | .YOUTUBE => ".mp4"

/-- Python `str.upper()` for the ASCII strings this program compares. -/
def pyUpper (s : String) : String :=
  String.mk (s.data.map Char.toUpper)

/-- Embeds `VideoService.from_argument`: `VideoService[arg_str.upper()]`, turning the
`KeyError` of a failed enum lookup into a `ValueError`. -/
def VideoService.from_argument (arg_str : String) : Except PyErr VideoService :=
  if pyUpper arg_str = "VIMEO" then .ok .VIMEO
  else if pyUpper arg_str = "YOUTUBE" then .ok .YOUTUBE
  else .error .valueError

/- ### Glob matching (main, lines 83-85) -/

/-- Scans for the closing `]` of a bracket expression, returning the content
before it and the remainder after it (`none` when there is no closing `]`). -/
def findClose : List Char → Option (List Char × List Char)
  | [] => none
  | ']' :: ps => some ([], ps)
  | c :: ps =>
    match findClose ps with
    | some (content, rest) => some (c :: content, rest)
    | none => none

/-- Parses a bracket expression after an opening `[`, following
`fnmatch.translate`: an optional leading `!` negates; a `]` directly after it
belongs to the content; the expression ends at the next `]`; when no closing
`]` exists the `[` is a literal character (`none`). -/
def pyGlobClass (ps : List Char) : Option (Bool × List Char × List Char) :=
  let negSplit : Bool × List Char :=
    match ps with
    | '!' :: t => (true, t)
    | _ => (false, ps)
  match negSplit with
  | (neg, ps1) =>
    match ps1 with
    | ']' :: t =>
      match findClose t with
      | some (content, rest) => some (neg, ']' :: content, rest)
      | none => none
    | _ =>
      match findClose ps1 with
      | some (content, rest) => some (neg, content, rest)
      | none => none

/-- Membership of a character in bracket-expression content: `a-b` is a
range (by code point, as in the regex `fnmatch.translate` builds), any other
character stands for itself; a `-` first or last is literal. -/
def classMember : List Char → Char → Bool
  | [], _ => false
  | a :: '-' :: b :: rest, c => (a ≤ c ∧ c ≤ b) || classMember rest c
  | a :: rest, c => (a = c) || classMember rest c

/-- One fnmatch step per unit of fuel.  `fnmatch` semantics as compiled by
`fnmatch.translate`: `*` matches any (possibly empty) character sequence — the
rest of the pattern must match some suffix of the name; `?` matches exactly
one character; `[...]` matches one character of the bracket expression
(`[!...]` its complement, an unterminated `[` is literal); other characters
match themselves.  Each step consumes at least one pattern character, so fuel
equal to the pattern length suffices; the fuel-exhausted value agrees with the
true one there because the pattern is then empty. -/
def fnmatchFuel : Nat → List Char → List Char → Bool
  | 0, ps, cs => ps.isEmpty && cs.isEmpty
  | _ + 1, [], cs => cs.isEmpty
  | fuel + 1, p :: ps, cs =>
    if p = '*' then cs.tails.any (fun t => fnmatchFuel fuel ps t)
    else if p = '?' then
      match cs with
      | [] => false
      | _ :: cs' => fnmatchFuel fuel ps cs'
    else if p = '[' then
      match pyGlobClass ps with
      | some (neg, content, rest) =>
        (match cs with
          | [] => false
          | c :: cs' => (classMember content c != neg) && fnmatchFuel fuel rest cs')
      | none =>
        (match cs with
          | [] => false
          | c :: cs' => ('[' = c) && fnmatchFuel fuel ps cs')
    else
      match cs with
      | [] => false
      | c :: cs' => p = c && fnmatchFuel fuel ps cs'

/-- Matching of an fnmatch pattern against a name (both as character lists). -/
def fnmatchL (ps cs : List Char) : Bool :=
  fnmatchFuel ps.length ps cs

/-- Matching of a glob pattern, split into path components, against the
components of a path relative to the globbed directory: a component that is
exactly `**` matches any (possibly empty) chain of components (pathlib's
recursive wildcard — the source pattern places one at the front); any other
component must match the corresponding path component by fnmatch.  A `**`
embedded in a longer component makes pathlib raise `ValueError`; such
patterns are outside this model and excluded by the claims' hypotheses. -/
def globComps : List String → List String → Bool
  | [], cs => cs.isEmpty
  | pc :: pcs, cs =>
    if pc = "**" then cs.tails.any (fun t => globComps pcs t)
    else
      match cs with
      | [] => false
      | c :: cs' => fnmatchL pc.data c.data && globComps pcs cs'

/-- Embeds `input_directory.glob("**/*" + input_suffix)`.  pathlib parses the
pattern into components exactly as it parses a path (split on `/`, dropping
empty and `.` pieces) and yields, in filesystem discovery order, the entries
under the directory whose path relative to it matches the components.
`listing` is the directory's recursive listing, each entry given by its path
relative to the directory (pathlib prefixes `input_directory /` onto each
yielded path; the embedding works in this relative frame throughout, leaving
that constant prefix implicit). -/
def globMatches (listing : List PyPath) (input_suffix : String) : List PyPath :=
  listing.filter (fun p =>
    globComps (PyPath.ofString ("**/*" ++ input_suffix)).parts p.parts)

/-- Python `list(x)` applied to a `pathlib.Path`: `Path` is not iterable, so
`list` raises `TypeError: 'PosixPath' object is not iterable`. -/
def pyListOfPath (_ : PyPath) : Except PyErr (List PyPath) :=
  .error .typeError

/-- Lines 83-85 of `main`:
`input_files = (list(input_file) if input_file else list(input_directory.glob("**/*" + input_suffix)))`.
A `Path` is always truthy and `None` is falsy, so the test is `input_file.isSome`;
`input_directory_listing` is the recursive listing of `input_directory`. -/
def resolveInputFiles (input_file : Option PyPath)
    (input_directory_listing : List PyPath) (input_suffix : String) :
    Except PyErr (List PyPath) :=
  match input_file with
  | some p => pyListOfPath p
  | none => .ok (globMatches input_directory_listing input_suffix)

/- ### The conversion loop (main, lines 92-101) -/

/-- One call of `ffmpeg.run`: the argument of `ffmpeg.input`, the first
argument and keyword arguments of `ffmpeg.output`, and the `cmd` executable. -/
structure FfmpegInvocation where
  input : String
  output : String
  kwargs : FfmpegKwargs
  cmd : String
deriving DecidableEq, Repr

/-- The encoder invocation built for one input file (lines 93-101): output
name is `input_file.stem + output_suffix`, joined onto `converted_directory`. -/
def mkInvocation (video_service : VideoService)
    (converted_directory ffmpeg_exe : PyPath) (f : PyPath) : FfmpegInvocation :=
  { input := f.str,
    output := ((converted_directory.join (f.stem ++ video_service.output_file_suffix))).str,
    kwargs := video_service.ffmpeg_output_kwargs,
    cmd := ffmpeg_exe.str }

/-- Observable process events: the `k`-th encoder process is spawned
(`ffmpeg.run` begins) or has exited (`ffmpeg.run`'s wait returns). -/
inductive ProcEvent where
  | start (k : Nat) (inv : FfmpegInvocation)
  | stop (k : Nat) (inv : FfmpegInvocation)
deriving DecidableEq, Repr

/-- The `for input_file in input_files:` loop of lines 92-101, recorded as an
event trace.  `ffmpegOk inv` tells whether the encoder invocation `inv`
succeeds; `ffmpeg.run` blocks until the process exits and then raises on
failure, so even a failing invocation contributes its start and stop events,
after which the exception aborts the loop. -/
def convertLoop (video_service : VideoService)
    (converted_directory ffmpeg_exe : PyPath)
    (ffmpegOk : FfmpegInvocation → Bool) :
    Nat → List PyPath → List ProcEvent × Except PyErr Unit
  | _, [] => ([], .ok ())
  | k, f :: rest =>
    let inv := mkInvocation video_service converted_directory ffmpeg_exe f
    if ffmpegOk inv then
      let out := convertLoop video_service converted_directory ffmpeg_exe ffmpegOk (k + 1) rest
      (.start k inv :: .stop k inv :: out.1, out.2)
    else
      ([.start k inv, .stop k inv], .error .ffmpegError)

/-- Embeds `main` (lines 69-103).  The parameters follow the source signature, with
`input_directory` represented by its recursive listing and the external
encoder by `ffmpegOk`.  Returns the event trace together with the returned
value (`0`, line 103) or the uncaught exception. -/
def mainRun (input_file : Option PyPath) (input_directory_listing : List PyPath)
    (input_suffix : String) (converted_directory ffmpeg_exe : PyPath)
    (video_service : VideoService) (convert_video : Bool)
    (ffmpegOk : FfmpegInvocation → Bool) :
    List ProcEvent × Except PyErr Nat :=
  if convert_video then
    match resolveInputFiles input_file input_directory_listing input_suffix with
    | .error e => ([], .error e)
    | .ok input_files =>
      let out := convertLoop video_service converted_directory ffmpeg_exe ffmpegOk 0 input_files
      match out.2 with
      | .ok _ => (out.1, .ok 0)
      | .error e => (out.1, .error e)
  else ([], .ok 0)

/-- Line 169, `exit(main(...))`: a normal return exits with that status; an
uncaught Python exception terminates the process with status 1. -/
def scriptExit : Except PyErr Nat → Nat
  | .ok n => n
  | .error _ => 1

/- ### parse_arguments (lines 106-165) -/

/-- Outcomes on which argparse terminates the process during parsing, so that
`parse_args` never returns: a token that is no declared option and no
consumable value (collected as an unrecognized extra; exit 2), an abbreviated
option matching several option strings (exit 2), an option needing a value
with none available (exit 2), an explicit `=value` on an option that takes no
value (exit 2), a `ValueError` raised by the `type` callable (exit 2), a
mutually-exclusive conflict (exit 2), a missing required argument or group
(exit 2), and the `--help`/`-h` action, which prints the help text and exits
with status 0.  The model reports the outcome of the first offending token;
argparse collects unrecognized extras and reports them only after the pass
(so a missing-required error can take precedence) — in every such case both
reject the command line without returning a namespace. -/
inductive ParseErr where
  | unrecognizedArgument
  | ambiguousOption
  | expectedOneArgument
  | ignoredExplicitArgument
  | invalidValue
  | notAllowedWith
  | requiredMissing
  | helpExit
deriving DecidableEq, Repr

/-- The seven declared options. -/
inductive ArgFlag where
  | videoService
  | inputFile
  | inputDirectory
  | inputSuffix
  | convertedDirectory
  | ffmpegExe
  | noConvert
deriving DecidableEq, Repr

/-- The long option strings of the parser, each with its option (`none` is
the help action, which argparse registers first). -/
def longOptionTable : List (String × Option ArgFlag) :=
  [("--help", none),
   ("--video-service", some .videoService),
   ("--input-file", some .inputFile),
   ("--input-directory", some .inputDirectory),
   ("--input-suffix", some .inputSuffix),
   ("--converted-directory", some .convertedDirectory),
   ("--ffmpeg-exe", some .ffmpegExe),
   ("--no-convert", some .noConvert)]

/-- The short option strings of the parser. -/
def shortOptionTable : List (String × Option ArgFlag) :=
  [("-h", none),
   ("-vs", some .videoService),
   ("-if", some .inputFile),
   ("-id", some .inputDirectory),
   ("-is", some .inputSuffix),
   ("-cd", some .convertedDirectory),
   ("-fe", some .ffmpegExe),
   ("-nc", some .noConvert)]

/-- Tells whether a token begins with `-`. -/
def startsWithDash (v : String) : Bool :=
  match v.data with
  | [] => false
  | c :: _ => c = '-'

/-- Recognises `-\d*.\d+` after the leading `-` of a negative decimal. -/
def digitsDotDigits : List Char → Bool
  | [] => false
  | '.' :: rest => decide (rest ≠ []) && rest.all Char.isDigit
  | c :: rest => c.isDigit && digitsDotDigits rest

/-- Python's negative-number shapes `-\d+` and `-\d*.\d+`; since none of
this parser's option strings looks like a negative number, argparse treats
such tokens as positional-like, so they can be consumed as option values. -/
def isNegNumber (t : String) : Bool :=
  match t.data with
  | '-' :: rest =>
    (decide (rest ≠ []) && rest.all Char.isDigit) || digitsDotDigits rest
  | _ => false

/-- Tells whether argparse classifies a token as option-like: it begins with
`-` and is not one of the positional-like shapes — a lone `-`, a negative
number, or a string containing a space.  Only option-like tokens are refused
as option values. -/
def looksLikeOption (t : String) : Bool :=
  startsWithDash t && !(t == "-") && !isNegNumber t && !t.data.contains ' '

/-- Splits a token at its first `=`, as argparse does for explicit option
values: the part before it and, when a `=` occurs, the value after it. -/
def splitEqAux : List Char → List Char → String × Option String
  | [], acc => (String.mk acc.reverse, none)
  | '=' :: rest, acc => (String.mk acc.reverse, some (String.mk rest))
  | c :: rest, acc => splitEqAux rest (c :: acc)

/-- Splits a token at its first `=`. -/
def splitEq (t : String) : String × Option String :=
  splitEqAux t.data []

/-- Looks a string up among the registered option strings (exact match). -/
def exactOption (s : String) : Option (Option ArgFlag) :=
  match (longOptionTable ++ shortOptionTable).find? (fun e => e.1 == s) with
  | some e => some e.2
  | none => none

/-- Candidate interpretations of a single-dash token that matches no option
string exactly, as argparse's option-tuple search builds them: every short
option string the token is a prefix of, and — when the token's first two
characters are a registered short option — that option with the remaining
characters as explicit value (`-hx` is `-h` with value `x`). -/
def singleDashCandidates (t : String) : List (Option ArgFlag × Option String) :=
  (shortOptionTable.filterMap (fun e =>
    if t.data.isPrefixOf e.1.data then some (e.2, (none : Option String))
    else none)) ++
  (if 2 < t.data.length then
    match exactOption (String.mk (t.data.take 2)) with
    | some act => [(act, some (String.mk (t.data.drop 2)))]
    | none => []
  else [])

/-- The classification of one command-line token. -/
inductive TokClass where
  | optTok (fl : ArgFlag) (inline : Option String)
  | helpTok (inline : Option String)
  | ambiguousTok
  | plainTok
deriving DecidableEq, Repr

/-- Packs a table entry and explicit value into a token class. -/
def mkTok : Option ArgFlag → Option String → TokClass
  | some fl, inline => .optTok fl inline
  | none, inline => .helpTok inline

/-- Classifies a command-line token as argparse does: a token that is not
option-like (and the bare `--` separator, which this parser — having no
positionals — always ends up reporting among the unrecognized extras) is
plain; an exact option string, also in `--opt=value` / `-o=value` form, is
that option; otherwise a `--` token is matched as an abbreviation of the long
option strings (with its `=` split), and a `-` token through the single-dash
candidate search — one candidate selects it, several are an ambiguous-option
error, none leaves the token plain. -/
def classifyToken (t : String) : TokClass :=
  if t = "--" then .plainTok
  else if looksLikeOption t = false then .plainTok
  else
    match exactOption t with
    | some act => mkTok act none
    | none =>
      match splitEq t with
      | (optPart, inline) =>
        match (match inline with
                | some _ => exactOption optPart
                | none => none) with
        | some act => mkTok act inline
        | none =>
          if ("--".data).isPrefixOf t.data then
            match longOptionTable.filter (fun e => optPart.data.isPrefixOf e.1.data) with
            | [] => .plainTok
            | [e] => mkTok e.2 inline
            | _ => .ambiguousTok
          else
            match singleDashCandidates t with
            | [] => .plainTok
            | [(act, ex)] => mkTok act ex
            | _ => .ambiguousTok

/-- Tells whether a command-line token supplies the given option: argparse
resolves it to that option — exactly, in `=value` form, or as an unambiguous
abbreviation. -/
def suppliesOption (fl : ArgFlag) (t : String) : Bool :=
  match classifyToken t with
  | .optTok fl2 _ => fl2 = fl
  | _ => false

/-- The namespace argparse fills in, with the declared defaults already in
place: `input_suffix='.mkv'`, `converted_directory=Path.cwd()` (the `cwd`
parameter), `ffmpeg_exe=Path('./ffmpeg/bin/ffmpeg')`, and `convert_video`
`True` by `action='store_false'`. -/
structure ArgNamespace where
  video_service : Option VideoService
  input_file : Option PyPath
  input_directory : Option PyPath
  input_suffix : String
  converted_directory : PyPath
  ffmpeg_exe : PyPath
  convert_video : Bool
deriving DecidableEq, Repr

/-- The namespace before any token is processed. -/
def initNamespace (cwd : PyPath) : ArgNamespace :=
  { video_service := none,
    input_file := none,
    input_directory := none,
    input_suffix := ".mkv",
    converted_directory := cwd,
    ffmpeg_exe := PyPath.ofString "./ffmpeg/bin/ffmpeg",
    convert_video := true }

/-- Store one value-taking option's value: `--video-service` runs the `type`
callable `VideoService.from_argument` (a `ValueError` becomes an argparse
invalid-value error; `choices=list(VideoService)` then always passes);
`--input-file` / `--input-directory` first check the mutually-exclusive group
(argparse rejects an action whose group partner was already seen); the path
options run `type=Path`. -/
def applyFlag (fl : ArgFlag) (v : String) (ns : ArgNamespace) :
    Except ParseErr ArgNamespace :=
  match fl with
  | .videoService =>
    match VideoService.from_argument v with
    | .ok svc => .ok { ns with video_service := some svc }
    | .error _ => .error .invalidValue
  | .inputFile =>
    if ns.input_directory.isSome then .error .notAllowedWith
    else .ok { ns with input_file := some (PyPath.ofString v) }
  | .inputDirectory =>
    if ns.input_file.isSome then .error .notAllowedWith
    else .ok { ns with input_directory := some (PyPath.ofString v) }
  | .inputSuffix => .ok { ns with input_suffix := v }
  | .convertedDirectory => .ok { ns with converted_directory := PyPath.ofString v }
  | .ffmpegExe => .ok { ns with ffmpeg_exe := PyPath.ofString v }
  | .noConvert => .ok ns

/-- Left-to-right pass over the tokens.  An option given without `=value`
consumes the next token as its value, refusing an option-like token there
(`expected one argument`); an explicit `=value` on `--no-convert` (which
takes no value) or on the help action is an `ignored explicit argument`
error; the help action makes argparse print the help text and exit 0; a
plain token is an unrecognized extra. -/
def parseLoop : List String → ArgNamespace → Except ParseErr ArgNamespace
  | [], ns => .ok ns
  | tok :: rest, ns =>
    match classifyToken tok with
    | .plainTok => .error .unrecognizedArgument
    | .ambiguousTok => .error .ambiguousOption
    | .helpTok none => .error .helpExit
    | .helpTok (some _) => .error .ignoredExplicitArgument
    | .optTok .noConvert none => parseLoop rest { ns with convert_video := false }
    | .optTok .noConvert (some _) => .error .ignoredExplicitArgument
    | .optTok fl none =>
      match rest with
      | [] => .error .expectedOneArgument
      | v :: rest2 =>
        if looksLikeOption v then .error .expectedOneArgument
        else
          match applyFlag fl v ns with
          | .ok ns2 => parseLoop rest2 ns2
          | .error e => .error e
    | .optTok fl (some v) =>
      match applyFlag fl v ns with
      | .ok ns2 => parseLoop rest ns2
      | .error e => .error e

/-- Embeds `parse_arguments(arguments)`: run the token pass from the defaults, then
the post-parse checks — `--video-service` is `required=True`, and the
mutually-exclusive input group is `required=True` (one of `--input-file` /
`--input-directory` must have been seen). -/
def parse_arguments (cwd : PyPath) (arguments : List String) :
    Except ParseErr ArgNamespace :=
  match parseLoop arguments (initNamespace cwd) with
  | .error e => .error e
  | .ok ns =>
    if ns.video_service.isNone then .error .requiredMissing
    else if ns.input_file.isNone ∧ ns.input_directory.isNone then
      .error .requiredMissing
    else .ok ns

/- ### Claims -/

/-- Claim C1 (refuted — code bug).  The claim says an explicit `--input-file`
list of N paths yields N encoder invocations; in particular
`--video-service vimeo --input-file rec.mkv --converted-directory out/` yields
one invocation producing `out/rec.mp4`.  In the code, argparse binds
`input_file` to a single `Path`, and line 84 evaluates `list(input_file)`;
a `Path` is not iterable, so `main` raises `TypeError` before any encoder
invocation: the run on the claim's own example produces an empty event trace,
the propagated `TypeError`, and process exit status 1. -/
theorem claim_C1_explicit_file_raises_type_error :
    mainRun (some (PyPath.ofString "rec.mkv")) [] ".mkv" (PyPath.ofString "out/")
      (PyPath.ofString "./ffmpeg/bin/ffmpeg") .VIMEO true (fun _ => true) =
      ([], .error .typeError) ∧
    scriptExit (mainRun (some (PyPath.ofString "rec.mkv")) [] ".mkv"
      (PyPath.ofString "out/") (PyPath.ofString "./ffmpeg/bin/ffmpeg") .VIMEO true
      (fun _ => true)).2 = 1 :=
  ⟨rfl, rfl⟩

/-- Claim C8 (refuted — code bug).  The claim says `--input-file` accepts one
or more paths and passes that set to conversion.  In the code the option is
declared without `nargs`, so a second path is an `unrecognized arguments`
error; and even the single accepted path makes `main` raise `TypeError` at
`list(input_file)` (line 84), so no path is ever passed through to an encoder
invocation. -/
theorem claim_C8_input_file_single_and_crashes :
    parse_arguments ⟨["cwd"]⟩
      ["--video-service", "vimeo", "--input-file", "a.mkv", "b.mkv"] =
      .error .unrecognizedArgument ∧
    parse_arguments ⟨["cwd"]⟩ ["--video-service", "vimeo", "--input-file", "a.mkv"] =
      .ok { video_service := some .VIMEO, input_file := some ⟨["a.mkv"]⟩,
            input_directory := none, input_suffix := ".mkv",
            converted_directory := ⟨["cwd"]⟩,
            ffmpeg_exe := ⟨["ffmpeg", "bin", "ffmpeg"]⟩, convert_video := true } ∧
    mainRun (some (PyPath.ofString "a.mkv")) [] ".mkv" (PyPath.ofString "out")
      (PyPath.ofString "./ffmpeg/bin/ffmpeg") .VIMEO true (fun _ => true) =
      ([], .error .typeError) :=
  ⟨rfl, rfl, rfl⟩

/-- Claim C4: with `--no-convert` (`convert_video` false) `main` performs no
work — no input resolution, no encoder invocation, an empty event trace — and
returns 0, whatever the other arguments, so the process exits with status 0. -/
theorem claim_C4_no_convert_is_noop (input_file : Option PyPath)
    (input_directory_listing : List PyPath) (input_suffix : String)
    (converted_directory ffmpeg_exe : PyPath) (video_service : VideoService)
    (ffmpegOk : FfmpegInvocation → Bool) :
    mainRun input_file input_directory_listing input_suffix converted_directory
      ffmpeg_exe video_service false ffmpegOk = ([], .ok 0) ∧
    scriptExit (mainRun input_file input_directory_listing input_suffix
      converted_directory ffmpeg_exe video_service false ffmpegOk).2 = 0 :=
  ⟨rfl, rfl⟩

/-- Claim C3: service lookup is case-insensitive — it succeeds exactly on the
strings whose uppercasing is a member name, returning that member, whose
encoder parameters and output suffix are the fixed ones of the source; any
other string raises `ValueError`, which argparse turns into an invalid-value
configuration error during `parse_arguments`, before any file is processed. -/
theorem claim_C3_service_lookup (s : String) :
    (VideoService.from_argument s = .ok .VIMEO ↔ pyUpper s = "VIMEO") ∧
    (VideoService.from_argument s = .ok .YOUTUBE ↔ pyUpper s = "YOUTUBE") ∧
    (pyUpper s ≠ "VIMEO" → pyUpper s ≠ "YOUTUBE" →
      VideoService.from_argument s = .error .valueError) ∧
    VideoService.VIMEO.ffmpeg_output_kwargs =
      { vcodec := "libx264", preset := "veryslow", crf := 18,
        acodec := "copy", pix_fmt := "yuv420p" } ∧
    VideoService.VIMEO.output_file_suffix = ".mp4" ∧
    VideoService.YOUTUBE.ffmpeg_output_kwargs =
      { vcodec := "libx264", preset := "veryslow", crf := 19,
        acodec := "copy", pix_fmt := "yuv420p" } ∧
    VideoService.YOUTUBE.output_file_suffix = ".mp4" ∧
    (∀ (cwd : PyPath) (rest : List String), startsWithDash s = false →
      pyUpper s ≠ "VIMEO" → pyUpper s ≠ "YOUTUBE" →
      parse_arguments cwd ("--video-service" :: s :: rest) = .error .invalidValue) := by
  refine ⟨?_, ?_, ?_, rfl, rfl, rfl, rfl, ?_⟩
  · unfold VideoService.from_argument
    split_ifs with h1 h2 <;> simp_all
  · unfold VideoService.from_argument
    split_ifs with h1 h2 <;> simp_all
  · intro hv hy
    unfold VideoService.from_argument
    split_ifs <;> simp_all
  · intro cwd rest hd hv hy
    have hfa : VideoService.from_argument s = .error .valueError := by
      unfold VideoService.from_argument
      split_ifs <;> simp_all
    have hclass : classifyToken "--video-service" = .optTok .videoService none := rfl
    have hlv : looksLikeOption s = false := by
      unfold looksLikeOption
      rw [hd]
      rfl
    simp [parse_arguments, parseLoop, hclass, hlv, applyFlag, hfa]

/-- Witness for C3: the lookup on concrete identifiers of various cases, and
the parse-time rejection of an unknown identifier. -/
theorem claim_C3_service_lookup_witness :
    VideoService.from_argument "vImEo" = .ok .VIMEO ∧
    VideoService.from_argument "YOUTUBE" = .ok .YOUTUBE ∧
    VideoService.from_argument "dailymotion" = .error .valueError ∧
    parse_arguments ⟨[]⟩ ["--video-service", "dailymotion", "--input-file", "a.mkv"] =
      .error .invalidValue :=
  ⟨(claim_C3_service_lookup "vImEo").1.mpr (by decide),
   (claim_C3_service_lookup "YOUTUBE").2.1.mpr (by decide),
   (claim_C3_service_lookup "dailymotion").2.2.1 (by decide) (by decide),
   (claim_C3_service_lookup "dailymotion").2.2.2.2.2.2.2 ⟨[]⟩ ["--input-file", "a.mkv"]
     rfl (by decide) (by decide)⟩

/-- A conversion loop whose every encoder invocation succeeds completes
without an exception. -/
lemma convertLoop_ok_of_all_ok (video_service : VideoService)
    (cd exe : PyPath) (ffmpegOk : FfmpegInvocation → Bool)
    (h : ∀ inv, ffmpegOk inv = true) :
    ∀ (k : Nat) (files : List PyPath),
      (convertLoop video_service cd exe ffmpegOk k files).2 = .ok () := by
  intro k files
  induction files generalizing k with
  | nil => rfl
  | cons f rest ih =>
    simp only [convertLoop, h, if_true]
    exact ih (k + 1)

/-- Claim C9: `main` never returns a non-zero value — a normal return is
exactly 0; an abnormal outcome is a raised exception, which happens only when
conversion is enabled (never under `--no-convert`); in file mode the
resolution step itself raises, and when nothing fails the run returns 0. -/
theorem claim_C9_main_return_value (input_file : Option PyPath)
    (listing : List PyPath) (input_suffix : String) (cd exe : PyPath)
    (svc : VideoService) (convert_video : Bool)
    (ffmpegOk : FfmpegInvocation → Bool) :
    (∀ n, (mainRun input_file listing input_suffix cd exe svc convert_video ffmpegOk).2 = .ok n →
      n = 0) ∧
    ((mainRun input_file listing input_suffix cd exe svc convert_video ffmpegOk).2 = .ok 0 ∨
      ∃ e, (mainRun input_file listing input_suffix cd exe svc convert_video ffmpegOk).2 = .error e) ∧
    (∀ e, (mainRun input_file listing input_suffix cd exe svc convert_video ffmpegOk).2 = .error e →
      convert_video = true) ∧
    (convert_video = true → input_file.isSome = true →
      (mainRun input_file listing input_suffix cd exe svc convert_video ffmpegOk).2 =
        .error .typeError) ∧
    (convert_video = true → input_file = none → (∀ inv, ffmpegOk inv = true) →
      (mainRun input_file listing input_suffix cd exe svc convert_video ffmpegOk).2 = .ok 0) := by
  cases convert_video with
  | false => simp [mainRun]
  | true =>
    cases input_file with
    | some p => simp [mainRun, resolveInputFiles, pyListOfPath]
    | none =>
      rcases hcl : (convertLoop svc cd exe ffmpegOk 0 (globMatches listing input_suffix)).2 with e | u
      · refine ⟨?_, ?_, ?_, ?_, ?_⟩
        · intro n h
          simp [mainRun, resolveInputFiles, hcl] at h
        · right
          exact ⟨e, by simp [mainRun, resolveInputFiles, hcl]⟩
        · intro _ _
          rfl
        · intro _ h
          simp at h
        · intro _ _ hall
          have := convertLoop_ok_of_all_ok svc cd exe ffmpegOk hall 0 (globMatches listing input_suffix)
          rw [this] at hcl
          cases hcl
      · refine ⟨?_, ?_, ?_, ?_, ?_⟩
        · intro n h
          simp [mainRun, resolveInputFiles, hcl] at h
          omega
        · left
          simp [mainRun, resolveInputFiles, hcl]
        · intro _ _
          rfl
        · intro _ h
          simp at h
        · intro _ _ _
          simp [mainRun, resolveInputFiles, hcl]

/-- Witness for C9: a directory-mode run in which every invocation succeeds
returns 0. -/
theorem claim_C9_witness :
    (mainRun none [PyPath.ofString "a.mkv"] ".mkv" (PyPath.ofString "out")
      (PyPath.ofString "f") .VIMEO true (fun _ => true)).2 = .ok 0 :=
  (claim_C9_main_return_value none [PyPath.ofString "a.mkv"] ".mkv"
    (PyPath.ofString "out") (PyPath.ofString "f") .VIMEO true
    (fun _ => true)).2.2.2.2 rfl rfl (fun _ => rfl)

/-- Encoder invocations actually begun, in trace order. -/
def startsOf (evs : List ProcEvent) : List FfmpegInvocation :=
  evs.filterMap (fun e =>
    match e with
    | .start _ inv => some inv
    | .stop _ _ => none)

/-- When the invocation at position `N` of the file list fails and every
earlier one succeeds, the loop raises the ffmpeg error and begins no
invocation with index above the offset of `N`. -/
lemma convertLoop_fail_at (svc : VideoService) (cd exe : PyPath)
    (ffmpegOk : FfmpegInvocation → Bool) :
    ∀ (files : List PyPath) (k N : Nat) (fN : PyPath),
      files[N]? = some fN →
      ffmpegOk (mkInvocation svc cd exe fN) = false →
      (∀ j f, j < N → files[j]? = some f → ffmpegOk (mkInvocation svc cd exe f) = true) →
      (convertLoop svc cd exe ffmpegOk k files).2 = .error .ffmpegError ∧
      (∀ m inv, ProcEvent.start m inv ∈ (convertLoop svc cd exe ffmpegOk k files).1 →
        m ≤ k + N) := by
  intro files
  induction files with
  | nil =>
    intro k N fN h
    simp at h
  | cons f rest ih =>
    intro k N fN hN hfail hpre
    cases N with
    | zero =>
      simp at hN
      subst hN
      refine ⟨by simp [convertLoop, hfail], ?_⟩
      intro m inv hmem
      simp [convertLoop, hfail] at hmem
      omega
    | succ n =>
      have h0 : ffmpegOk (mkInvocation svc cd exe f) = true :=
        hpre 0 f (Nat.succ_pos n) (by simp)
      have hN' : rest[n]? = some fN := by simpa using hN
      have hpre' : ∀ j f', j < n → rest[j]? = some f' →
          ffmpegOk (mkInvocation svc cd exe f') = true := by
        intro j f' hj hf
        exact hpre (j + 1) f' (Nat.succ_lt_succ hj) (by simpa using hf)
      obtain ⟨ih1, ih2⟩ := ih (k + 1) n fN hN' hfail hpre'
      refine ⟨by simp [convertLoop, h0]; exact ih1, ?_⟩
      intro m inv hmem
      simp [convertLoop, h0] at hmem
      rcases hmem with ⟨hm, _⟩ | hmem
      · omega
      · have := ih2 m inv hmem
        omega

/-- Claim C2: in directory mode, if the `N`-th resolved file's encoder
invocation fails and the earlier ones succeed, then no invocation with index
above `N` is ever begun, the ffmpeg error propagates out of `main` uncaught,
and the process exits with status 1 (non-zero). -/
theorem claim_C2_fail_fast (listing : List PyPath) (input_suffix : String)
    (cd exe : PyPath) (svc : VideoService) (ffmpegOk : FfmpegInvocation → Bool)
    (N : Nat) (fN : PyPath)
    (hN : (globMatches listing input_suffix)[N]? = some fN)
    (hfail : ffmpegOk (mkInvocation svc cd exe fN) = false)
    (hpre : ∀ j f, j < N → (globMatches listing input_suffix)[j]? = some f →
      ffmpegOk (mkInvocation svc cd exe f) = true) :
    (∀ m inv, ProcEvent.start m inv ∈
      (mainRun none listing input_suffix cd exe svc true ffmpegOk).1 → m ≤ N) ∧
    (mainRun none listing input_suffix cd exe svc true ffmpegOk).2 = .error .ffmpegError ∧
    scriptExit (mainRun none listing input_suffix cd exe svc true ffmpegOk).2 = 1 := by
  obtain ⟨h1, h2⟩ := convertLoop_fail_at svc cd exe ffmpegOk
    (globMatches listing input_suffix) 0 N fN hN hfail hpre
  have hm : mainRun none listing input_suffix cd exe svc true ffmpegOk =
      ((convertLoop svc cd exe ffmpegOk 0 (globMatches listing input_suffix)).1,
        .error .ffmpegError) := by
    simp [mainRun, resolveInputFiles, h1]
  refine ⟨?_, by rw [hm], by rw [hm]; rfl⟩
  intro m inv hmem
  rw [hm] at hmem
  have := h2 m inv hmem
  omega

/-- Witness for C2: two resolved files, the first invocation failing — the
error propagates. -/
theorem claim_C2_witness :
    (globMatches [PyPath.ofString "a.mkv", PyPath.ofString "b.mkv"] ".mkv")[0]? =
      some (PyPath.ofString "a.mkv") ∧
    (mainRun none [PyPath.ofString "a.mkv", PyPath.ofString "b.mkv"] ".mkv"
      (PyPath.ofString "out") (PyPath.ofString "f") .VIMEO true
      (fun inv => inv.input == "b.mkv")).2 = .error .ffmpegError :=
  ⟨by decide,
   (claim_C2_fail_fast [PyPath.ofString "a.mkv", PyPath.ofString "b.mkv"] ".mkv"
     (PyPath.ofString "out") (PyPath.ofString "f") .VIMEO
     (fun inv => inv.input == "b.mkv") 0 (PyPath.ofString "a.mkv")
     (by decide) (by decide)
     (fun j f hj _ => absurd hj (Nat.not_lt_zero j))).2.1⟩

/-- The invocations begun by the loop are an initial segment of the file
list, in order. -/
lemma convertLoop_take (svc : VideoService) (cd exe : PyPath)
    (ffmpegOk : FfmpegInvocation → Bool) :
    ∀ (files : List PyPath) (k : Nat), ∃ n, n ≤ files.length ∧
      startsOf (convertLoop svc cd exe ffmpegOk k files).1 =
        (files.take n).map (mkInvocation svc cd exe) := by
  intro files
  induction files with
  | nil => exact fun k => ⟨0, Nat.le_refl 0, rfl⟩
  | cons f rest ih =>
    intro k
    by_cases h : ffmpegOk (mkInvocation svc cd exe f) = true
    · obtain ⟨n, hn, hs⟩ := ih (k + 1)
      refine ⟨n + 1, Nat.succ_le_succ hn, ?_⟩
      simp [convertLoop, h, startsOf] at hs ⊢
      exact hs
    · have hb : ffmpegOk (mkInvocation svc cd exe f) = false := by
        simpa using h
      exact ⟨1, by simp, by simp [convertLoop, hb, startsOf]⟩

/-- On a fully successful run every file is begun, in list order. -/
lemma convertLoop_all_of_ok (svc : VideoService) (cd exe : PyPath)
    (ffmpegOk : FfmpegInvocation → Bool) :
    ∀ (files : List PyPath) (k : Nat),
      (convertLoop svc cd exe ffmpegOk k files).2 = .ok () →
      startsOf (convertLoop svc cd exe ffmpegOk k files).1 =
        files.map (mkInvocation svc cd exe) := by
  intro files
  induction files with
  | nil => exact fun k _ => rfl
  | cons f rest ih =>
    intro k hok
    by_cases h : ffmpegOk (mkInvocation svc cd exe f) = true
    · simp [convertLoop, h, startsOf] at hok ⊢
      exact ih (k + 1) hok
    · have hb : ffmpegOk (mkInvocation svc cd exe f) = false := by
        simpa using h
      simp [convertLoop, hb] at hok
  
/-- In the event trace, the encoder process of invocation `m` exits before
invocation `m + 1` begins. -/
lemma convertLoop_stop_before_start (svc : VideoService) (cd exe : PyPath)
    (ffmpegOk : FfmpegInvocation → Bool) :
    ∀ (files : List PyPath) (k m : Nat) (inv' : FfmpegInvocation), k ≤ m →
      ProcEvent.start (m + 1) inv' ∈ (convertLoop svc cd exe ffmpegOk k files).1 →
      ∃ inv, [ProcEvent.stop m inv, ProcEvent.start (m + 1) inv'].Sublist
        (convertLoop svc cd exe ffmpegOk k files).1 := by
  intro files
  induction files with
  | nil =>
    intro k m inv' _ hmem
    simp [convertLoop] at hmem
  | cons f rest ih =>
    intro k m inv' hkm hmem
    by_cases h : ffmpegOk (mkInvocation svc cd exe f) = true
    · simp only [convertLoop, h, if_true] at hmem ⊢
      simp at hmem
      rcases hmem with ⟨hm, _⟩ | hmem
      · omega
      · rcases Nat.lt_or_ge m (k + 1) with hmk | hmk
        · have hmeq : m = k := by omega
          subst hmeq
          exact ⟨mkInvocation svc cd exe f,
            List.Sublist.cons _ (List.Sublist.cons₂ _ (List.singleton_sublist.mpr hmem))⟩
        · obtain ⟨inv, hsub⟩ := ih (k + 1) m inv' hmk hmem
          exact ⟨inv, List.Sublist.cons _ (List.Sublist.cons _ hsub)⟩
    · have hb : ffmpegOk (mkInvocation svc cd exe f) = false := by
        simpa using h
      simp [convertLoop, hb] at hmem
      omega

/-- Claim C7: conversion is strictly sequential — the begun invocations are an
initial segment of the resolved file list in exactly its order (the whole list
when the run succeeds), and the encoder process for file `m` exits before the
invocation for file `m + 1` begins. -/
theorem claim_C7_sequential_in_order (files : List PyPath) (svc : VideoService)
    (cd exe : PyPath) (ffmpegOk : FfmpegInvocation → Bool) :
    (∃ n, n ≤ files.length ∧
      startsOf (convertLoop svc cd exe ffmpegOk 0 files).1 =
        (files.take n).map (mkInvocation svc cd exe)) ∧
    ((convertLoop svc cd exe ffmpegOk 0 files).2 = .ok () →
      startsOf (convertLoop svc cd exe ffmpegOk 0 files).1 =
        files.map (mkInvocation svc cd exe)) ∧
    (∀ m inv', ProcEvent.start (m + 1) inv' ∈
        (convertLoop svc cd exe ffmpegOk 0 files).1 →
      ∃ inv, [ProcEvent.stop m inv, ProcEvent.start (m + 1) inv'].Sublist
        (convertLoop svc cd exe ffmpegOk 0 files).1) :=
  ⟨convertLoop_take svc cd exe ffmpegOk files 0,
   convertLoop_all_of_ok svc cd exe ffmpegOk files 0,
   fun m inv' => convertLoop_stop_before_start svc cd exe ffmpegOk files 0 m inv'
     (Nat.zero_le m)⟩

/-- Witness for C7: with two files, the second invocation is begun only after
the first process' stop event. -/
theorem claim_C7_witness :
    ProcEvent.start 1 (mkInvocation .VIMEO (PyPath.ofString "out")
        (PyPath.ofString "f") (PyPath.ofString "b.mkv")) ∈
      (convertLoop .VIMEO (PyPath.ofString "out") (PyPath.ofString "f")
        (fun _ => true) 0 [PyPath.ofString "a.mkv", PyPath.ofString "b.mkv"]).1 ∧
    ∃ inv, [ProcEvent.stop 0 inv,
        ProcEvent.start 1 (mkInvocation .VIMEO (PyPath.ofString "out")
          (PyPath.ofString "f") (PyPath.ofString "b.mkv"))].Sublist
      (convertLoop .VIMEO (PyPath.ofString "out") (PyPath.ofString "f")
        (fun _ => true) 0 [PyPath.ofString "a.mkv", PyPath.ofString "b.mkv"]).1 :=
  ⟨by decide,
   (claim_C7_sequential_in_order [PyPath.ofString "a.mkv", PyPath.ofString "b.mkv"]
     .VIMEO (PyPath.ofString "out") (PyPath.ofString "f") (fun _ => true)).2.2 0
     (mkInvocation .VIMEO (PyPath.ofString "out") (PyPath.ofString "f")
       (PyPath.ofString "b.mkv")) (by decide)⟩

/-- A wildcard-free pattern matches exactly itself (with enough fuel). -/
lemma fnmatchFuel_literal : ∀ (ps : List Char),
    (∀ c ∈ ps, c ≠ '*' ∧ c ≠ '?' ∧ c ≠ '[') →
    ∀ (cs : List Char) (fuel : Nat), ps.length ≤ fuel →
    (fnmatchFuel fuel ps cs = true ↔ ps = cs) := by
  intro ps
  induction ps with
  | nil =>
    intro _ cs fuel _
    cases fuel with
    | zero => cases cs <;> simp [fnmatchFuel]
    | succ f => cases cs <;> simp [fnmatchFuel]
  | cons p ps ih =>
    intro hps cs fuel hlen
    obtain ⟨hp1, hp2, hp3⟩ := hps p (by simp)
    have hps' : ∀ c ∈ ps, c ≠ '*' ∧ c ≠ '?' ∧ c ≠ '[' :=
      fun c hc => hps c (by simp [hc])
    cases fuel with
    | zero => simp at hlen
    | succ f =>
      have hf : ps.length ≤ f := by simpa using hlen
      cases cs with
      | nil => simp [fnmatchFuel, hp1, hp2, hp3]
      | cons c cs' => simp [fnmatchFuel, hp1, hp2, hp3, ih hps' cs' f hf]

/-- A pattern `*` followed by a wildcard-free literal matches exactly the
names having that literal as a suffix. -/
lemma fnmatchL_star (ps : List Char)
    (hps : ∀ c ∈ ps, c ≠ '*' ∧ c ≠ '?' ∧ c ≠ '[') (cs : List Char) :
    (fnmatchL ('*' :: ps) cs = true ↔ ps <:+ cs) := by
  have hunf : fnmatchL ('*' :: ps) cs =
      cs.tails.any (fun t => fnmatchFuel ps.length ps t) := by
    simp [fnmatchL, fnmatchFuel]
  rw [hunf, List.any_eq_true]
  constructor
  · rintro ⟨t, ht, hm⟩
    have he := (fnmatchFuel_literal ps hps t ps.length (Nat.le_refl _)).mp hm
    exact he ▸ (List.mem_tails t cs).mp ht
  · intro h
    exact ⟨ps, (List.mem_tails ps cs).mpr h,
      (fnmatchFuel_literal ps hps ps ps.length (Nat.le_refl _)).mpr rfl⟩

/-- Splitting a slash-free character list produces a single piece. -/
lemma splitSlashAux_no_slash : ∀ (cs acc : List Char), (∀ c ∈ cs, c ≠ '/') →
    splitSlashAux cs acc = [String.mk (acc.reverse ++ cs)] := by
  intro cs
  induction cs with
  | nil => intro acc _; simp [splitSlashAux]
  | cons c cs ih =>
    intro acc h
    have hc : c ≠ '/' := h c (by simp)
    have h' : ∀ x ∈ cs, x ≠ '/' := fun x hx => h x (by simp [hx])
    simp [splitSlashAux, hc, ih (c :: acc) h']

/-- For a slash-free suffix the glob pattern of `main` parses into the two
components `**` and `*suffix`. -/
lemma pattern_parts (input_suffix : String)
    (hs : ∀ c ∈ input_suffix.data, c ≠ '/') :
    (PyPath.ofString ("**/*" ++ input_suffix)).parts =
      ["**", String.mk ('*' :: input_suffix.data)] := by
  unfold PyPath.ofString
  have hdata : ("**/*" ++ input_suffix).data =
      '*' :: '*' :: '/' :: '*' :: input_suffix.data := by
    simp
  rw [hdata]
  have hns : ∀ c ∈ '*' :: input_suffix.data, c ≠ '/' := by
    intro c hc
    rcases List.mem_cons.mp hc with rfl | hc
    · decide
    · exact hs c hc
  have hstep : splitSlashAux ('*' :: '*' :: '/' :: '*' :: input_suffix.data) [] =
      ["**", String.mk ('*' :: input_suffix.data)] := by
    simp [splitSlashAux, splitSlashAux_no_slash input_suffix.data ['*'] hs]
  rw [hstep]
  have h1 : (String.mk ('*' :: input_suffix.data) ≠ "" ∧
      String.mk ('*' :: input_suffix.data) ≠ ".") := by
    constructor <;> intro h <;> simpa using congrArg String.data h
  simp [List.filter, h1]

/-- A singleton list is a suffix of a concatenation with a singleton exactly
when the elements agree. -/
lemma singleton_suffix_concat {α : Type} {c b : α} {L : List α} :
    [c] <:+ L ++ [b] ↔ c = b := by
  constructor
  · rintro ⟨s, hs⟩
    have h := congrArg List.getLast? hs
    rw [List.getLast?_concat] at h
    have h2 : (L ++ [b]).getLast? = some b := List.getLast?_concat _
    rw [h2] at h
    exact Option.some.inj h
  · rintro rfl
    exact ⟨L, rfl⟩

/-- Against the pattern `["**", px]` (with `px` not the recursive wildcard), a
component list matches exactly when its last component fnmatches `px`. -/
lemma globComps_last (px : String) (hpx : px ≠ "**") (cs : List String) :
    (globComps ["**", px] cs = true ↔
      ∃ c, [c] <:+ cs ∧ fnmatchL px.data c.data = true) := by
  have h1 : globComps ["**", px] cs = cs.tails.any (fun t => globComps [px] t) := by
    simp [globComps]
  have h2 : ∀ t, globComps [px] t = true ↔
      ∃ c, t = [c] ∧ fnmatchL px.data c.data = true := by
    intro t
    cases t with
    | nil => simp [globComps, hpx]
    | cons c t' =>
      simp only [globComps, if_neg hpx]
      cases t' with
      | nil => simp
      | cons d t2 => simp [globComps]
  rw [h1, List.any_eq_true]
  constructor
  · rintro ⟨t, ht, hm⟩
    obtain ⟨c, rfl, hfm⟩ := (h2 t).mp hm
    exact ⟨c, (List.mem_tails _ _).mp ht, hfm⟩
  · rintro ⟨c, hsuf, hfm⟩
    exact ⟨[c], (List.mem_tails _ _).mpr hsuf, (h2 [c]).mpr ⟨c, rfl, hfm⟩⟩

/-- For a wildcard-free, slash-free suffix, the glob of `main` selects exactly
the entries whose filename ends with the suffix, keeping discovery order. -/
lemma globMatches_eq_suffix_filter (listing : List PyPath) (input_suffix : String)
    (hs : ∀ c ∈ input_suffix.data, c ≠ '*' ∧ c ≠ '?' ∧ c ≠ '[' ∧ c ≠ '/')
    (hne : ∀ p ∈ listing, p.parts ≠ []) :
    globMatches listing input_suffix =
      listing.filter (fun p => input_suffix.data.isSuffixOf p.name.data) := by
  unfold globMatches
  rw [pattern_parts input_suffix (fun c hc => (hs c hc).2.2.2)]
  apply List.filter_congr
  intro p hp
  have hsm : ∀ c ∈ input_suffix.data, c ≠ '*' ∧ c ≠ '?' ∧ c ≠ '[' :=
    fun c hc => ⟨(hs c hc).1, (hs c hc).2.1, (hs c hc).2.2.1⟩
  have hpx : String.mk ('*' :: input_suffix.data) ≠ "**" := by
    intro h
    have hd := congrArg String.data h
    simp at hd
    exact absurd rfl (hs '*' (by simp [hd])).1
  rcases List.eq_nil_or_concat' p.parts with hnil | ⟨front, last, hconc⟩
  · exact absurd hnil (hne p hp)
  · have hlast : p.name = last := by
      unfold PyPath.name
      rw [hconc]
      exact List.getLastD_concat _ _ _
    have hiff : globComps ["**", String.mk ('*' :: input_suffix.data)] p.parts = true ↔
        input_suffix.data <:+ p.name.data := by
      rw [globComps_last _ hpx]
      constructor
      · rintro ⟨c, hcs, hfm⟩
        rw [hconc] at hcs
        have hc : c = last := singleton_suffix_concat.mp hcs
        subst hc
        rw [hlast]
        exact (fnmatchL_star _ hsm _).mp hfm
      · intro h
        refine ⟨last, ?_, ?_⟩
        · rw [hconc]
          exact singleton_suffix_concat.mpr rfl
        · exact (fnmatchL_star _ hsm _).mpr (hlast ▸ h)
    cases hgb : globComps ["**", String.mk ('*' :: input_suffix.data)] p.parts with
    | false =>
      cases hsf : List.isSuffixOf input_suffix.data p.name.data with
      | false => rfl
      | true =>
        exact absurd (hiff.mpr (List.isSuffixOf_iff_suffix.mp hsf)) (by simp [hgb])
    | true =>
      cases hsf : List.isSuffixOf input_suffix.data p.name.data with
      | false =>
        exact absurd (List.isSuffixOf_iff_suffix.mpr (hiff.mp hgb)) (by simp [hsf])
      | true => rfl

/-- Claim C5: in directory mode (no explicit input file) the resolved input
sequence is exactly the recursively discovered entries whose filename ends
with the configured suffix, in discovery order.  The suffix is assumed free
of the glob metacharacters and of `/` (otherwise the pattern is not a
filename filter), and the listed entries are actual entries below the
directory (non-empty relative paths). -/
theorem claim_C5_directory_mode_filter (listing : List PyPath)
    (input_suffix : String)
    (hs : ∀ c ∈ input_suffix.data, c ≠ '*' ∧ c ≠ '?' ∧ c ≠ '[' ∧ c ≠ '/')
    (hne : ∀ p ∈ listing, p.parts ≠ []) :
    resolveInputFiles none listing input_suffix =
      .ok (listing.filter (fun p => input_suffix.data.isSuffixOf p.name.data)) := by
  simp [resolveInputFiles, globMatches_eq_suffix_filter listing input_suffix hs hne]

/-- Witness for C5: a directory containing `a.mkv`, `b.mkv`, `c.txt` with
suffix `.mkv` resolves to exactly the two `.mkv` files. -/
theorem claim_C5_witness :
    (∀ c ∈ ".mkv".data, c ≠ '*' ∧ c ≠ '?' ∧ c ≠ '[' ∧ c ≠ '/') ∧
    resolveInputFiles none
      [PyPath.ofString "a.mkv", PyPath.ofString "b.mkv",
        PyPath.ofString "c.txt"] ".mkv" =
      .ok [PyPath.ofString "a.mkv", PyPath.ofString "b.mkv"] := by
  refine ⟨by decide, ?_⟩
  rw [claim_C5_directory_mode_filter _ _ (by decide) (by decide)]
  rfl

/-- A token classified as an option supplies exactly that option. -/
lemma suppliesOption_classified {t : String} {fl : ArgFlag} {i : Option String}
    (h : classifyToken t = .optTok fl i) (fl2 : ArgFlag) :
    suppliesOption fl2 t = decide (fl = fl2) := by
  unfold suppliesOption
  rw [h]

/-- A token that is not option-like is classified as plain. -/
lemma classify_of_not_option {v : String} (hv : ¬ looksLikeOption v = true) :
    classifyToken v = .plainTok := by
  unfold classifyToken
  split_ifs <;> simp_all

/-- A token that is not option-like supplies no option. -/
lemma suppliesOption_value {v : String} (hv : ¬ looksLikeOption v = true)
    (fl2 : ArgFlag) : suppliesOption fl2 v = false := by
  unfold suppliesOption
  rw [classify_of_not_option hv]

/-- Restriction of an everywhere-false predicate to a tail. -/
lemma forall_mem_of_cons {p : String → Bool} {a : String} {l : List String}
    (h : ∀ t ∈ a :: l, p t = false) : ∀ t ∈ l, p t = false :=
  fun t ht => h t (List.mem_cons_of_mem _ ht)

/-- A witnessing element of a cons list that cannot be its head is in the
tail. -/
lemma exists_mem_cons_elim {p : String → Bool} {a : String} {l : List String}
    (h : ∃ t ∈ a :: l, p t = true) (ha : p a = false) : ∃ t ∈ l, p t = true := by
  obtain ⟨t, ht, hp⟩ := h
  rcases List.mem_cons.mp ht with rfl | ht2
  · rw [ha] at hp
    cases hp
  · exact ⟨t, ht2, hp⟩

/-- Invariants of the token pass: the input-file and input-directory slots are
monotone, unchanged when no token supplies their option, filled when some
token does, and never both filled; the remaining slots are unchanged when no
token supplies their option. -/
lemma parseLoop_invariants (toks : List String) (ns : ArgNamespace) :
    ∀ ns', parseLoop toks ns = .ok ns' →
      (ns.input_file.isSome = true → ns'.input_file.isSome = true) ∧
      (ns.input_directory.isSome = true → ns'.input_directory.isSome = true) ∧
      ((∀ t ∈ toks, suppliesOption .inputFile t = false) →
        ns'.input_file = ns.input_file) ∧
      ((∀ t ∈ toks, suppliesOption .inputDirectory t = false) →
        ns'.input_directory = ns.input_directory) ∧
      ((∃ t ∈ toks, suppliesOption .inputFile t = true) →
        ns'.input_file.isSome = true) ∧
      ((∃ t ∈ toks, suppliesOption .inputDirectory t = true) →
        ns'.input_directory.isSome = true) ∧
      (¬(ns.input_file.isSome = true ∧ ns.input_directory.isSome = true) →
        ¬(ns'.input_file.isSome = true ∧ ns'.input_directory.isSome = true)) ∧
      ((∀ t ∈ toks, suppliesOption .inputSuffix t = false) →
        ns'.input_suffix = ns.input_suffix) ∧
      ((∀ t ∈ toks, suppliesOption .convertedDirectory t = false) →
        ns'.converted_directory = ns.converted_directory) ∧
      ((∀ t ∈ toks, suppliesOption .ffmpegExe t = false) →
        ns'.ffmpeg_exe = ns.ffmpeg_exe) ∧
      ((∀ t ∈ toks, suppliesOption .noConvert t = false) →
        ns'.convert_video = ns.convert_video) := by
  induction toks, ns using parseLoop.induct with
  | case1 ns =>
    intro ns' h
    simp only [parseLoop] at h
    cases h
    exact ⟨id, id, fun _ => rfl, fun _ => rfl,
      fun hm => by simp at hm, fun hm => by simp at hm,
      id, fun _ => rfl, fun _ => rfl, fun _ => rfl, fun _ => rfl⟩
  | case2 tok rest ns hclass =>
    intro ns' h
    simp [parseLoop, hclass] at h
  | case3 tok rest ns hclass =>
    intro ns' h
    simp [parseLoop, hclass] at h
  | case4 tok rest ns hclass =>
    intro ns' h
    simp [parseLoop, hclass] at h
  | case5 tok rest ns val hclass =>
    intro ns' h
    simp [parseLoop, hclass] at h
  | case6 tok rest ns hclass ih =>
    intro ns' h
    simp only [parseLoop, hclass] at h
    obtain ⟨m1, m2, p1, p2, s1, s2, ex, q1, q2, q3, q4⟩ := ih ns' h
    have hsup := suppliesOption_classified hclass
    exact ⟨m1, m2,
      fun hall => p1 (forall_mem_of_cons hall),
      fun hall => p2 (forall_mem_of_cons hall),
      fun hex => s1 (exists_mem_cons_elim hex (by rw [hsup]; rfl)),
      fun hex => s2 (exists_mem_cons_elim hex (by rw [hsup]; rfl)),
      ex,
      fun hall => q1 (forall_mem_of_cons hall),
      fun hall => q2 (forall_mem_of_cons hall),
      fun hall => q3 (forall_mem_of_cons hall),
      fun hall => absurd (hall tok (List.mem_cons_self _ _)) (by rw [hsup]; simp)⟩
  | case7 tok rest ns val hclass =>
    intro ns' h
    simp [parseLoop, hclass] at h
  | case8 tok ns fl hne hclass =>
    intro ns' h
    cases fl <;> first
      | exact absurd rfl hne
      | simp [parseLoop, hclass] at h
  | case9 tok ns fl hne hclass c cs' hv =>
    intro ns' h
    cases fl <;> first
      | exact absurd rfl hne
      | simp [parseLoop, hclass, hv] at h
  | case10 tok ns fl hne hclass c cs' hv ns2 hfl ih =>
    intro ns' h
    cases fl with
    | noConvert => exact absurd rfl hne
      | videoService =>
        simp only [parseLoop, hclass] at h
        rw [if_neg hv, hfl] at h
        cases hfa : VideoService.from_argument c with
        | error e2 => simp [applyFlag, hfa] at hfl
        | ok svc =>
          simp only [applyFlag, hfa] at hfl
          cases hfl
          obtain ⟨m1, m2, p1, p2, s1, s2, ex, q1, q2, q3, q4⟩ := ih ns' h
          have hsup := suppliesOption_classified hclass
          have hval := suppliesOption_value hv
          exact ⟨m1,
              m2,
              fun hall => p1 (forall_mem_of_cons (forall_mem_of_cons hall)),
              fun hall => p2 (forall_mem_of_cons (forall_mem_of_cons hall)),
              fun hex => s1 (exists_mem_cons_elim
                (exists_mem_cons_elim hex (by rw [hsup]; rfl)) (hval _)),
              fun hex => s2 (exists_mem_cons_elim
                (exists_mem_cons_elim hex (by rw [hsup]; rfl)) (hval _)),
              ex,
              fun hall => q1 (forall_mem_of_cons (forall_mem_of_cons hall)),
              fun hall => q2 (forall_mem_of_cons (forall_mem_of_cons hall)),
              fun hall => q3 (forall_mem_of_cons (forall_mem_of_cons hall)),
              fun hall => q4 (forall_mem_of_cons (forall_mem_of_cons hall))⟩
      | inputFile =>
        simp only [parseLoop, hclass] at h
        rw [if_neg hv, hfl] at h
        simp only [applyFlag] at hfl
        by_cases hdir : ns.input_directory.isSome = true
        · rw [if_pos hdir] at hfl
          cases hfl
        · rw [if_neg hdir] at hfl
          cases hfl
          obtain ⟨m1, m2, p1, p2, s1, s2, ex, q1, q2, q3, q4⟩ := ih ns' h
          have hsup := suppliesOption_classified hclass
          have hval := suppliesOption_value hv
          exact ⟨fun _ => m1 rfl,
              m2,
              fun hall => absurd (hall tok (List.mem_cons_self _ _)) (by rw [hsup]; simp),
              fun hall => p2 (forall_mem_of_cons (forall_mem_of_cons hall)),
              fun _ => m1 rfl,
              fun hex => s2 (exists_mem_cons_elim
                (exists_mem_cons_elim hex (by rw [hsup]; rfl)) (hval _)),
              fun _ => ex (fun hb => hdir hb.2),
              fun hall => q1 (forall_mem_of_cons (forall_mem_of_cons hall)),
              fun hall => q2 (forall_mem_of_cons (forall_mem_of_cons hall)),
              fun hall => q3 (forall_mem_of_cons (forall_mem_of_cons hall)),
              fun hall => q4 (forall_mem_of_cons (forall_mem_of_cons hall))⟩
      | inputDirectory =>
        simp only [parseLoop, hclass] at h
        rw [if_neg hv, hfl] at h
        simp only [applyFlag] at hfl
        by_cases hfile : ns.input_file.isSome = true
        · rw [if_pos hfile] at hfl
          cases hfl
        · rw [if_neg hfile] at hfl
          cases hfl
          obtain ⟨m1, m2, p1, p2, s1, s2, ex, q1, q2, q3, q4⟩ := ih ns' h
          have hsup := suppliesOption_classified hclass
          have hval := suppliesOption_value hv
          exact ⟨m1,
              fun _ => m2 rfl,
              fun hall => p1 (forall_mem_of_cons (forall_mem_of_cons hall)),
              fun hall => absurd (hall tok (List.mem_cons_self _ _)) (by rw [hsup]; simp),
              fun hex => s1 (exists_mem_cons_elim
                (exists_mem_cons_elim hex (by rw [hsup]; rfl)) (hval _)),
              fun _ => m2 rfl,
              fun _ => ex (fun hb => hfile hb.1),
              fun hall => q1 (forall_mem_of_cons (forall_mem_of_cons hall)),
              fun hall => q2 (forall_mem_of_cons (forall_mem_of_cons hall)),
              fun hall => q3 (forall_mem_of_cons (forall_mem_of_cons hall)),
              fun hall => q4 (forall_mem_of_cons (forall_mem_of_cons hall))⟩
      | inputSuffix =>
        simp only [parseLoop, hclass] at h
        rw [if_neg hv, hfl] at h
        simp only [applyFlag] at hfl
        cases hfl
        obtain ⟨m1, m2, p1, p2, s1, s2, ex, q1, q2, q3, q4⟩ := ih ns' h
        have hsup := suppliesOption_classified hclass
        have hval := suppliesOption_value hv
        exact ⟨m1,
            m2,
            fun hall => p1 (forall_mem_of_cons (forall_mem_of_cons hall)),
            fun hall => p2 (forall_mem_of_cons (forall_mem_of_cons hall)),
            fun hex => s1 (exists_mem_cons_elim
              (exists_mem_cons_elim hex (by rw [hsup]; rfl)) (hval _)),
            fun hex => s2 (exists_mem_cons_elim
              (exists_mem_cons_elim hex (by rw [hsup]; rfl)) (hval _)),
            ex,
            fun hall => absurd (hall tok (List.mem_cons_self _ _)) (by rw [hsup]; simp),
            fun hall => q2 (forall_mem_of_cons (forall_mem_of_cons hall)),
            fun hall => q3 (forall_mem_of_cons (forall_mem_of_cons hall)),
            fun hall => q4 (forall_mem_of_cons (forall_mem_of_cons hall))⟩
      | convertedDirectory =>
        simp only [parseLoop, hclass] at h
        rw [if_neg hv, hfl] at h
        simp only [applyFlag] at hfl
        cases hfl
        obtain ⟨m1, m2, p1, p2, s1, s2, ex, q1, q2, q3, q4⟩ := ih ns' h
        have hsup := suppliesOption_classified hclass
        have hval := suppliesOption_value hv
        exact ⟨m1,
            m2,
            fun hall => p1 (forall_mem_of_cons (forall_mem_of_cons hall)),
            fun hall => p2 (forall_mem_of_cons (forall_mem_of_cons hall)),
            fun hex => s1 (exists_mem_cons_elim
              (exists_mem_cons_elim hex (by rw [hsup]; rfl)) (hval _)),
            fun hex => s2 (exists_mem_cons_elim
              (exists_mem_cons_elim hex (by rw [hsup]; rfl)) (hval _)),
            ex,
            fun hall => q1 (forall_mem_of_cons (forall_mem_of_cons hall)),
            fun hall => absurd (hall tok (List.mem_cons_self _ _)) (by rw [hsup]; simp),
            fun hall => q3 (forall_mem_of_cons (forall_mem_of_cons hall)),
            fun hall => q4 (forall_mem_of_cons (forall_mem_of_cons hall))⟩
      | ffmpegExe =>
        simp only [parseLoop, hclass] at h
        rw [if_neg hv, hfl] at h
        simp only [applyFlag] at hfl
        cases hfl
        obtain ⟨m1, m2, p1, p2, s1, s2, ex, q1, q2, q3, q4⟩ := ih ns' h
        have hsup := suppliesOption_classified hclass
        have hval := suppliesOption_value hv
        exact ⟨m1,
            m2,
            fun hall => p1 (forall_mem_of_cons (forall_mem_of_cons hall)),
            fun hall => p2 (forall_mem_of_cons (forall_mem_of_cons hall)),
            fun hex => s1 (exists_mem_cons_elim
              (exists_mem_cons_elim hex (by rw [hsup]; rfl)) (hval _)),
            fun hex => s2 (exists_mem_cons_elim
              (exists_mem_cons_elim hex (by rw [hsup]; rfl)) (hval _)),
            ex,
            fun hall => q1 (forall_mem_of_cons (forall_mem_of_cons hall)),
            fun hall => q2 (forall_mem_of_cons (forall_mem_of_cons hall)),
            fun hall => absurd (hall tok (List.mem_cons_self _ _)) (by rw [hsup]; simp),
            fun hall => q4 (forall_mem_of_cons (forall_mem_of_cons hall))⟩
  | case11 tok ns fl hne hclass c cs' hv e hfl =>
    intro ns' h
    cases fl <;> first
      | exact absurd rfl hne
      | (simp only [parseLoop, hclass] at h
         rw [if_neg hv, hfl] at h
         cases h)
  | case12 tok rest ns fl v hne hclass ns2 hfl ih =>
    intro ns' h
    cases fl with
    | noConvert => exact absurd rfl hne
      | videoService =>
        simp only [parseLoop, hclass] at h
        rw [hfl] at h
        cases hfa : VideoService.from_argument v with
        | error e2 => simp [applyFlag, hfa] at hfl
        | ok svc =>
          simp only [applyFlag, hfa] at hfl
          cases hfl
          obtain ⟨m1, m2, p1, p2, s1, s2, ex, q1, q2, q3, q4⟩ := ih ns' h
          have hsup := suppliesOption_classified hclass
          exact ⟨m1,
              m2,
              fun hall => p1 (forall_mem_of_cons hall),
              fun hall => p2 (forall_mem_of_cons hall),
              fun hex => s1 (exists_mem_cons_elim hex (by rw [hsup]; rfl)),
              fun hex => s2 (exists_mem_cons_elim hex (by rw [hsup]; rfl)),
              ex,
              fun hall => q1 (forall_mem_of_cons hall),
              fun hall => q2 (forall_mem_of_cons hall),
              fun hall => q3 (forall_mem_of_cons hall),
              fun hall => q4 (forall_mem_of_cons hall)⟩
      | inputFile =>
        simp only [parseLoop, hclass] at h
        rw [hfl] at h
        simp only [applyFlag] at hfl
        by_cases hdir : ns.input_directory.isSome = true
        · rw [if_pos hdir] at hfl
          cases hfl
        · rw [if_neg hdir] at hfl
          cases hfl
          obtain ⟨m1, m2, p1, p2, s1, s2, ex, q1, q2, q3, q4⟩ := ih ns' h
          have hsup := suppliesOption_classified hclass
          exact ⟨fun _ => m1 rfl,
              m2,
              fun hall => absurd (hall tok (List.mem_cons_self _ _)) (by rw [hsup]; simp),
              fun hall => p2 (forall_mem_of_cons hall),
              fun _ => m1 rfl,
              fun hex => s2 (exists_mem_cons_elim hex (by rw [hsup]; rfl)),
              fun _ => ex (fun hb => hdir hb.2),
              fun hall => q1 (forall_mem_of_cons hall),
              fun hall => q2 (forall_mem_of_cons hall),
              fun hall => q3 (forall_mem_of_cons hall),
              fun hall => q4 (forall_mem_of_cons hall)⟩
      | inputDirectory =>
        simp only [parseLoop, hclass] at h
        rw [hfl] at h
        simp only [applyFlag] at hfl
        by_cases hfile : ns.input_file.isSome = true
        · rw [if_pos hfile] at hfl
          cases hfl
        · rw [if_neg hfile] at hfl
          cases hfl
          obtain ⟨m1, m2, p1, p2, s1, s2, ex, q1, q2, q3, q4⟩ := ih ns' h
          have hsup := suppliesOption_classified hclass
          exact ⟨m1,
              fun _ => m2 rfl,
              fun hall => p1 (forall_mem_of_cons hall),
              fun hall => absurd (hall tok (List.mem_cons_self _ _)) (by rw [hsup]; simp),
              fun hex => s1 (exists_mem_cons_elim hex (by rw [hsup]; rfl)),
              fun _ => m2 rfl,
              fun _ => ex (fun hb => hfile hb.1),
              fun hall => q1 (forall_mem_of_cons hall),
              fun hall => q2 (forall_mem_of_cons hall),
              fun hall => q3 (forall_mem_of_cons hall),
              fun hall => q4 (forall_mem_of_cons hall)⟩
      | inputSuffix =>
        simp only [parseLoop, hclass] at h
        rw [hfl] at h
        simp only [applyFlag] at hfl
        cases hfl
        obtain ⟨m1, m2, p1, p2, s1, s2, ex, q1, q2, q3, q4⟩ := ih ns' h
        have hsup := suppliesOption_classified hclass
        exact ⟨m1,
            m2,
            fun hall => p1 (forall_mem_of_cons hall),
            fun hall => p2 (forall_mem_of_cons hall),
            fun hex => s1 (exists_mem_cons_elim hex (by rw [hsup]; rfl)),
            fun hex => s2 (exists_mem_cons_elim hex (by rw [hsup]; rfl)),
            ex,
            fun hall => absurd (hall tok (List.mem_cons_self _ _)) (by rw [hsup]; simp),
            fun hall => q2 (forall_mem_of_cons hall),
            fun hall => q3 (forall_mem_of_cons hall),
            fun hall => q4 (forall_mem_of_cons hall)⟩
      | convertedDirectory =>
        simp only [parseLoop, hclass] at h
        rw [hfl] at h
        simp only [applyFlag] at hfl
        cases hfl
        obtain ⟨m1, m2, p1, p2, s1, s2, ex, q1, q2, q3, q4⟩ := ih ns' h
        have hsup := suppliesOption_classified hclass
        exact ⟨m1,
            m2,
            fun hall => p1 (forall_mem_of_cons hall),
            fun hall => p2 (forall_mem_of_cons hall),
            fun hex => s1 (exists_mem_cons_elim hex (by rw [hsup]; rfl)),
            fun hex => s2 (exists_mem_cons_elim hex (by rw [hsup]; rfl)),
            ex,
            fun hall => q1 (forall_mem_of_cons hall),
            fun hall => absurd (hall tok (List.mem_cons_self _ _)) (by rw [hsup]; simp),
            fun hall => q3 (forall_mem_of_cons hall),
            fun hall => q4 (forall_mem_of_cons hall)⟩
      | ffmpegExe =>
        simp only [parseLoop, hclass] at h
        rw [hfl] at h
        simp only [applyFlag] at hfl
        cases hfl
        obtain ⟨m1, m2, p1, p2, s1, s2, ex, q1, q2, q3, q4⟩ := ih ns' h
        have hsup := suppliesOption_classified hclass
        exact ⟨m1,
            m2,
            fun hall => p1 (forall_mem_of_cons hall),
            fun hall => p2 (forall_mem_of_cons hall),
            fun hex => s1 (exists_mem_cons_elim hex (by rw [hsup]; rfl)),
            fun hex => s2 (exists_mem_cons_elim hex (by rw [hsup]; rfl)),
            ex,
            fun hall => q1 (forall_mem_of_cons hall),
            fun hall => q2 (forall_mem_of_cons hall),
            fun hall => absurd (hall tok (List.mem_cons_self _ _)) (by rw [hsup]; simp),
            fun hall => q4 (forall_mem_of_cons hall)⟩
  | case13 tok rest ns fl v hne hclass e hfl =>
    intro ns' h
    cases fl <;> first
      | exact absurd rfl hne
      | (simp only [parseLoop, hclass] at h
         rw [hfl] at h
         cases h)

/-- Claim C10: an invocation in which no token supplies the optional options
gets the declared defaults: `input_suffix = ".mkv"`, `converted_directory`
the current working directory, `ffmpeg_exe` the relative path
`./ffmpeg/bin/ffmpeg`, and `convert_video = true`. -/
theorem claim_C10_defaults (cwd : PyPath) (argv : List String) (ns : ArgNamespace)
    (hp : parse_arguments cwd argv = .ok ns)
    (h1 : ∀ t ∈ argv, suppliesOption .inputSuffix t = false)
    (h2 : ∀ t ∈ argv, suppliesOption .convertedDirectory t = false)
    (h3 : ∀ t ∈ argv, suppliesOption .ffmpegExe t = false)
    (h4 : ∀ t ∈ argv, suppliesOption .noConvert t = false) :
    ns.input_suffix = ".mkv" ∧ ns.converted_directory = cwd ∧
    ns.ffmpeg_exe = PyPath.ofString "./ffmpeg/bin/ffmpeg" ∧
    ns.convert_video = true := by
  unfold parse_arguments at hp
  rcases hl : parseLoop argv (initNamespace cwd) with e | ns1 <;>
    simp only [hl] at hp
  · cases hp
  · by_cases hvs : ns1.video_service.isNone
    · rw [if_pos hvs] at hp
      cases hp
    · rw [if_neg hvs] at hp
      by_cases hio : ns1.input_file.isNone ∧ ns1.input_directory.isNone
      · rw [if_pos hio] at hp
        cases hp
      · rw [if_neg hio] at hp
        cases hp
        obtain ⟨m1, m2, p1, p2, s1, s2, ex, q1, q2, q3, q4⟩ :=
          parseLoop_invariants argv (initNamespace cwd) _ hl
        exact ⟨q1 h1, q2 h2, q3 h3, q4 h4⟩

/-- Witness for C10: parsing a command line with only the required options
yields the default suffix, output directory, encoder path and convert flag. -/
theorem claim_C10_witness :
    ({ video_service := some .VIMEO, input_file := some ⟨["rec.mkv"]⟩,
       input_directory := none, input_suffix := ".mkv",
       converted_directory := ⟨["home"]⟩,
       ffmpeg_exe := ⟨["ffmpeg", "bin", "ffmpeg"]⟩,
       convert_video := true } : ArgNamespace).input_suffix = ".mkv" ∧
    ({ video_service := some .VIMEO, input_file := some ⟨["rec.mkv"]⟩,
       input_directory := none, input_suffix := ".mkv",
       converted_directory := ⟨["home"]⟩,
       ffmpeg_exe := ⟨["ffmpeg", "bin", "ffmpeg"]⟩,
       convert_video := true } : ArgNamespace).converted_directory = ⟨["home"]⟩ ∧
    ({ video_service := some .VIMEO, input_file := some ⟨["rec.mkv"]⟩,
       input_directory := none, input_suffix := ".mkv",
       converted_directory := ⟨["home"]⟩,
       ffmpeg_exe := ⟨["ffmpeg", "bin", "ffmpeg"]⟩,
       convert_video := true } : ArgNamespace).ffmpeg_exe =
      PyPath.ofString "./ffmpeg/bin/ffmpeg" ∧
    ({ video_service := some .VIMEO, input_file := some ⟨["rec.mkv"]⟩,
       input_directory := none, input_suffix := ".mkv",
       converted_directory := ⟨["home"]⟩,
       ffmpeg_exe := ⟨["ffmpeg", "bin", "ffmpeg"]⟩,
       convert_video := true } : ArgNamespace).convert_video = true :=
  claim_C10_defaults ⟨["home"]⟩ ["--video-service", "vimeo", "--input-file", "rec.mkv"]
    _ rfl (by decide) (by decide) (by decide) (by decide)
